import Mathlib

/-!
Shallow embedding of the value-resolution engine (`src/values.ts`) and the
HTTP deploy plugin of the vs-deploy repository, together with theorems
settling the frozen claims about them.

Strings are modelled as Lean `String`s / `List Char`; JavaScript `undefined`
and thrown exceptions are modelled with `Option` and explicit outcome types.
-/

/-- Brace characters, kept as named constants. -/
def lbrace : Char := Char.ofNat 123

/-- Closing brace character. -/
def rbrace : Char := Char.ofNat 125

/-- ASCII lower-casing on code points, used by case-insensitive matching and
name normalization (the `/i` regex flag and `toLowerCase` on the ASCII names
this code manipulates). -/
def lowerNat (n : Nat) : Nat := if 65 ≤ n ∧ n ≤ 90 then n + 32 else n

/-- ASCII lower-casing of a character. -/
def lowerChar (c : Char) : Char :=
  if 65 ≤ c.toNat ∧ c.toNat ≤ 90 then Char.ofNat (c.toNat + 32) else c

/-- Whitespace characters trimmed by `String.prototype.trim` (the ones relevant
to this code base). -/
def isWsChar (c : Char) : Bool := c = ' ' || c = '\t' || c = '\n' || c = '\r'

/-- Trim leading and trailing whitespace from a character list. -/
def trimChars (l : List Char) : List Char :=
  ((l.dropWhile isWsChar).reverse.dropWhile isWsChar).reverse

/-- Modelled from the spec: `deploy_helpers.normalizeString` (helpers.ts is not
part of the sources) stringifies, lower-cases and trims its argument; names are
matched "case/whitespace-normalized". -/
def normalizeString (s : String) : String :=
  String.mk (trimChars (s.data.map lowerChar))

/-- Modelled from the spec: `deploy_helpers.isEmptyString` (helpers.ts is not
part of the sources) — true when the stringified value trims to the empty
string; `none` models `undefined`, which stringifies to `""`. -/
def isEmptyString (s : Option String) : Bool :=
  (trimChars (s.getD "").data).isEmpty

/-- The kind of a produced Value, one per `case` of `toValueObjects`. -/
inductive ValueKind where
  | static
  | code
  | env
  | file
  | script
deriving DecidableEq, Repr

/-- A produced Value object (`ValueBase` subclasses): its kind, its name, the
result of its `value` accessor (`none` models an accessor that throws), and the
`id` assigned by `toValueObjects`. -/
structure ValueB where
  kind : ValueKind := .static
  name : String
  value : Option String := none
  id : Nat := 0
deriving DecidableEq, Repr

/-- One pass of the `str.replace(/(\$)(\x7b)([^\x7d]*)(\x7d)/gm, ...)` loop body
of `replaceWithValues`: scan the string left to right; `$` followed by an open
brace starts a token whose body runs to the first closing brace; a token whose
normalized body equals the normalized value name `vn` is replaced by the
value's stringified result, or left as the original matched text when the
accessor throws (`vv = none`, the catch block keeps `newValue = match`);
any other token and all remaining text are emitted unchanged.  The first
argument is `none` outside a token and `some body` (reversed) inside one;
an unclosed token at end of input is emitted literally, as the regex leaves
it unmatched. -/
def scanAux (vn : String) (vv : Option String) :
    Option (List Char) → List Char → List Char
  | none, [] => []
  | none, [c] => [c]
  | none, c :: c2 :: rest =>
      if c = '$' ∧ c2 = lbrace then scanAux vn vv (some []) rest
      else c :: scanAux vn vv none (c2 :: rest)
  | some body, [] => '$' :: lbrace :: body.reverse
  | some body, c :: rest =>
      if c = rbrace then
        (if normalizeString (String.mk body.reverse) = vn then
          match vv with
          | some s => s.data
          | none => '$' :: lbrace :: body.reverse ++ [rbrace]
        else '$' :: lbrace :: body.reverse ++ [rbrace])
        ++ scanAux vn vv none rest
      else scanAux vn vv (some (c :: body)) rest

/-- One iteration of the `allValues.forEach` loop of `replaceWithValues`, for
the value with normalized name `vn` and accessor result `vv`. -/
def replacePass (vn : String) (vv : Option String) (s : String) : String :=
  String.mk (scanAux vn vv none s.data)

/-- `replaceWithValues(values, val)` for a string input: iterate over the
values in list order, each iteration performing one global token-replacement
pass for that value's normalized name. -/
def replaceWithValues (values : List ValueB) (val : String) : String :=
  values.foldl (fun str v => replacePass (normalizeString v.name) v.value str) val

/-- The bodies of the tokens one replacement pass would inspect, in scan
order; mirrors the scan of `scanAux`. -/
def tokenBodiesAux : Option (List Char) → List Char → List String
  | none, [] => []
  | none, [_] => []
  | none, c :: c2 :: rest =>
      if c = '$' ∧ c2 = lbrace then tokenBodiesAux (some []) rest
      else tokenBodiesAux none (c2 :: rest)
  | some _, [] => []
  | some body, c :: rest =>
      if c = rbrace then String.mk body.reverse :: tokenBodiesAux none rest
      else tokenBodiesAux (some (c :: body)) rest

/-- The token bodies of a string, as matched by the replacement regex. -/
def tokenBodies (s : String) : List String := tokenBodiesAux none s.data

example : tokenBodies "a$\x7bx\x7db" = ["x"] := by decide
example : replaceWithValues [⟨.static, "x", some "1", 0⟩] "a$\x7bx\x7db" = "a1b" := by
  decide
example : replaceWithValues [⟨.static, "x", none, 0⟩] "$\x7bx\x7d" = "$\x7bx\x7d" := by
  decide

/-- What an interrupted scan state flushes: outside a token nothing is
pending; inside a token the already-consumed opener and body are pending. -/
def stFlush : Option (List Char) → List Char
  | none => []
  | some body => '$' :: lbrace :: body.reverse

/-- A pass whose value accessor throws (`vv = none`) reproduces its input
verbatim: every matched token is replaced by its own matched text. -/
theorem scanAux_none (vn : String) :
    ∀ (st : Option (List Char)) (l : List Char),
      scanAux vn none st l = stFlush st ++ l
  | none, [] => by simp [scanAux, stFlush]
  | none, [c] => by simp [scanAux, stFlush]
  | none, c :: c2 :: rest => by
      by_cases hc : c = '$' ∧ c2 = lbrace
      · have ih := scanAux_none vn (some []) rest
        simp [scanAux, hc, stFlush] at ih ⊢
        simp [ih, hc.1, hc.2]
      · have ih := scanAux_none vn none (c2 :: rest)
        simp [scanAux, hc, stFlush] at ih ⊢
        simp [ih]
  | some body, [] => by simp [scanAux, stFlush]
  | some body, c :: rest => by
      by_cases hc : c = rbrace
      · have ih := scanAux_none vn none rest
        simp [scanAux, hc, stFlush] at ih ⊢
        simp [ih, hc]
      · have ih := scanAux_none vn (some (c :: body)) rest
        simp [scanAux, hc, stFlush] at ih ⊢
        simp [ih]

/-- A pass touching no token whose normalized body equals `vn` reproduces its
input verbatim. -/
theorem scanAux_no_match (vn : String) (vv : Option String) :
    ∀ (st : Option (List Char)) (l : List Char),
      (∀ b ∈ tokenBodiesAux st l, normalizeString b ≠ vn) →
      scanAux vn vv st l = stFlush st ++ l
  | none, [], _ => by simp [scanAux, stFlush]
  | none, [c], _ => by simp [scanAux, stFlush]
  | none, c :: c2 :: rest, h => by
      by_cases hc : c = '$' ∧ c2 = lbrace
      · have h' : ∀ b ∈ tokenBodiesAux (some []) rest, normalizeString b ≠ vn := by
          intro b hb; exact h b (by simp [tokenBodiesAux, hc, hb])
        have ih := scanAux_no_match vn vv (some []) rest h'
        simp [scanAux, hc, stFlush] at ih ⊢
        simp [ih, hc.1, hc.2]
      · have h' : ∀ b ∈ tokenBodiesAux none (c2 :: rest), normalizeString b ≠ vn := by
          intro b hb; exact h b (by simp [tokenBodiesAux, hc, hb])
        have ih := scanAux_no_match vn vv none (c2 :: rest) h'
        simp [scanAux, hc, stFlush] at ih ⊢
        simp [ih]
  | some body, [], _ => by simp [scanAux, stFlush]
  | some body, c :: rest, h => by
      by_cases hc : c = rbrace
      · have hbody : normalizeString (String.mk body.reverse) ≠ vn :=
          h _ (by simp [tokenBodiesAux, hc])
        have h' : ∀ b ∈ tokenBodiesAux none rest, normalizeString b ≠ vn := by
          intro b hb; exact h b (by simp [tokenBodiesAux, hc, hb])
        have ih := scanAux_no_match vn vv none rest h'
        simp [scanAux, hc, stFlush, hbody] at ih ⊢
        simp [ih, hc]
      · have h' : ∀ b ∈ tokenBodiesAux (some (c :: body)) rest,
            normalizeString b ≠ vn := by
          intro b hb; exact h b (by simp [tokenBodiesAux, hc, hb])
        have ih := scanAux_no_match vn vv (some (c :: body)) rest h'
        simp [scanAux, hc, stFlush] at ih ⊢
        simp [ih]

/-- A replacement pass for a value whose accessor throws is the identity. -/
theorem replacePass_none (vn : String) (s : String) :
    replacePass vn none s = s := by
  unfold replacePass
  rw [scanAux_none]
  cases s
  simp [stFlush]

/-- A replacement pass for a value whose normalized name matches no token of
the input is the identity. -/
theorem replacePass_no_match (vn : String) (vv : Option String) (s : String)
    (h : ∀ b ∈ tokenBodies s, normalizeString b ≠ vn) :
    replacePass vn vv s = s := by
  unfold replacePass
  rw [scanAux_no_match vn vv none s.data h]
  cases s
  simp [stFlush]

/-- C6: for every Value list and every string whose tokens all have normalized
names matching no Value's normalized name, `replaceWithValues` returns the
string unchanged; in particular an empty Value list leaves a token such as
`$\x7bx\x7d` literally intact. -/
theorem C6_no_matching_token_identity (values : List ValueB) (s : String)
    (h : ∀ b ∈ tokenBodies s, ∀ v ∈ values,
        normalizeString b ≠ normalizeString v.name) :
    replaceWithValues values s = s := by
  induction values with
  | nil => rfl
  | cons v vs ih =>
      unfold replaceWithValues at *
      simp only [List.foldl_cons]
      rw [replacePass_no_match _ _ s (fun b hb => h b hb v (by simp))]
      exact ih (fun b hb w hw => h b hb w (by simp [hw]))

/-- Witness for C6: the empty Value list leaves the literal token intact. -/
theorem C6_no_matching_token_identity_witness :
    replaceWithValues [] "$\x7bx\x7d" = "$\x7bx\x7d" :=
  C6_no_matching_token_identity [] "$\x7bx\x7d" (by decide)

/-- C4: a Value whose accessor throws is skipped: the result is the same as if
that Value were absent from the list, and that Value's own replacement pass
leaves the whole string — in particular every token matching its name — as the
original matched text.  The definitions are total, so no exception escapes. -/
theorem C4_throwing_accessor_skipped (l1 l2 : List ValueB) (v : ValueB)
    (s : String) (hv : v.value = none) :
    replaceWithValues (l1 ++ v :: l2) s = replaceWithValues (l1 ++ l2) s
    ∧ replacePass (normalizeString v.name) v.value s = s := by
  constructor
  · unfold replaceWithValues
    rw [List.foldl_append, List.foldl_append, List.foldl_cons]
    congr 1
    rw [hv, replacePass_none]
  · rw [hv, replacePass_none]

/-- Witness for C4: a throwing `x` Value leaves its token and lets the `a`
Value substitute normally. -/
theorem C4_throwing_accessor_skipped_witness :
    replaceWithValues [⟨.static, "a", some "1", 0⟩, ⟨.static, "x", none, 1⟩]
        "$\x7ba\x7d$\x7bx\x7d"
      = replaceWithValues [⟨.static, "a", some "1", 0⟩] "$\x7ba\x7d$\x7bx\x7d"
    ∧ replacePass (normalizeString "x") none "$\x7ba\x7d$\x7bx\x7d"
      = "$\x7ba\x7d$\x7bx\x7d" :=
  C4_throwing_accessor_skipped [⟨.static, "a", some "1", 0⟩] []
    ⟨.static, "x", none, 1⟩ "$\x7ba\x7d$\x7bx\x7d" rfl

/-- C2 counterexample: with two Values both named `x`, the earlier one's value
`a` — not the later one's value `b`, as the claim states — is what the token
`$\x7bx\x7d` becomes: the earlier pass consumes the token, so the later pass
finds nothing to replace. -/
theorem C2_counterexample :
    replaceWithValues [⟨.static, "x", some "a", 0⟩, ⟨.static, "x", some "b", 1⟩]
        "$\x7bx\x7d" = "a"
    ∧ ("a" : String) ≠ "b" := by
  constructor
  · decide
  · decide

/-- C2 amended: in every Value list containing two Values that share a
normalized name — any members before, between and after them included — the
earlier one in iteration order wins for a token: whenever the string produced
by the passes up to and including the members between them contains no token
still matching the shared name (the earlier pass consumed it, its accessor
did not throw, and nothing reintroduced one), the later Value's pass changes
nothing and the whole substitution behaves as if the later Value were absent.
-/
theorem C2_earlier_value_wins (l1 l2 l3 : List ValueB) (v1 v2 : ValueB)
    (s : String)
    (_hshare : normalizeString v1.name = normalizeString v2.name)
    (h : ∀ b ∈ tokenBodies (replaceWithValues (l1 ++ v1 :: l2) s),
        normalizeString b ≠ normalizeString v2.name) :
    replaceWithValues (l1 ++ v1 :: l2 ++ v2 :: l3) s
      = replaceWithValues (l1 ++ v1 :: l2 ++ l3) s
    ∧ replacePass (normalizeString v2.name) v2.value
        (replaceWithValues (l1 ++ v1 :: l2) s)
      = replaceWithValues (l1 ++ v1 :: l2) s := by
  have hpass : replacePass (normalizeString v2.name) v2.value
      (replaceWithValues (l1 ++ v1 :: l2) s)
      = replaceWithValues (l1 ++ v1 :: l2) s :=
    replacePass_no_match _ _ _ h
  refine ⟨?_, hpass⟩
  unfold replaceWithValues at hpass ⊢
  simp only [List.foldl_append, List.foldl_cons] at hpass ⊢
  congr 1

/-- Witness for C2's amended theorem at two Values named `x`: the result is
the earlier value's substitution and the later Value's pass is a no-op. -/
theorem C2_earlier_value_wins_witness :
    replaceWithValues [⟨.static, "x", some "a", 0⟩, ⟨.static, "x", some "b", 1⟩]
        "$\x7bx\x7d"
      = replaceWithValues [⟨.static, "x", some "a", 0⟩] "$\x7bx\x7d"
    ∧ replacePass (normalizeString "x") (some "b")
        (replaceWithValues [⟨.static, "x", some "a", 0⟩] "$\x7bx\x7d")
      = replaceWithValues [⟨.static, "x", some "a", 0⟩] "$\x7bx\x7d" :=
  C2_earlier_value_wins [] [] [] ⟨.static, "x", some "a", 0⟩
    ⟨.static, "x", some "b", 1⟩ "$\x7bx\x7d" rfl (by decide)

/-- A configured value definition: its `name`, its `type` tag and (for the
kinds whose payload the claims touch) a payload standing for the item's
type-specific fields. -/
structure ValueItem where
  name : String
  type : String
  value : Option String := none
deriving DecidableEq, Repr

/-- The `switch (deploy_helpers.normalizeString(i.type))` dispatch of
`toValueObjects`: empty or `static` makes a Static value, `code` a Code value,
`env`/`environment` an Environment value, `file` a File value, `script` a
Script value; anything else produces no Value. -/
def kindOfType (t : String) : Option ValueKind :=
  if normalizeString t = "" then some .static
  else if normalizeString t = "static" then some .static
  else if normalizeString t = "code" then some .code
  else if normalizeString t = "env" then some .env
  else if normalizeString t = "environment" then some .env
  else if normalizeString t = "file" then some .file
  else if normalizeString t = "script" then some .script
  else none

/-- The `forEach((i, idx) => ...)` loop of `toValueObjects`: `idx` counts every
visited entry (also the ones whose type tag is unrecognized and which hence
produce no Value), and each produced Value receives `id := idx`. -/
def toValueObjectsGo : Nat → List ValueItem → List ValueB
  | _, [] => []
  | idx, i :: rest =>
      match kindOfType i.type with
      | some k =>
          { kind := k, name := i.name, value := i.value, id := idx }
            :: toValueObjectsGo (idx + 1) rest
      | none => toValueObjectsGo (idx + 1) rest

/-- `toValueObjects(items)`: drop falsy entries (`none` models a falsy entry),
then run the indexed construction loop from index 0. -/
def toValueObjects (items : List (Option ValueItem)) : List ValueB :=
  toValueObjectsGo 0 (items.filterMap id)

/-- The sibling view of `v` in the produced list `r`: `toValueObjects` wires
`otherValueProvider` to `result.filter(x => x.id !== newValue.id)` over the
final result list, and the `ValueBase.otherValues` getter runs the provider
under try/catch (identity here: the provider is total) and drops falsy entries
(identity here: no entry is null). -/
def otherValues (r : List ValueB) (v : ValueB) : List ValueB :=
  r.filter (fun x => x.id ≠ v.id)

/-- Every Value the loop produces from start index `n` has `id ≥ n`. -/
theorem toValueObjectsGo_id_ge (n : Nat) (l : List ValueItem) :
    ∀ v ∈ toValueObjectsGo n l, n ≤ v.id := by
  induction l generalizing n with
  | nil => simp [toValueObjectsGo]
  | cons i rest ih =>
      intro v hv
      unfold toValueObjectsGo at hv
      cases hk : kindOfType i.type with
      | some k =>
          rw [hk] at hv
          rcases List.mem_cons.mp hv with hv | hv
          · simp [hv]
          · exact Nat.le_of_succ_le (ih (n + 1) v hv)
      | none =>
          rw [hk] at hv
          exact Nat.le_of_succ_le (ih (n + 1) v hv)

/-- The produced ids are strictly increasing along the list. -/
theorem toValueObjectsGo_pairwise (n : Nat) (l : List ValueItem) :
    (toValueObjectsGo n l).Pairwise (fun a b => a.id < b.id) := by
  induction l generalizing n with
  | nil => simp [toValueObjectsGo]
  | cons i rest ih =>
      unfold toValueObjectsGo
      cases hk : kindOfType i.type with
      | some k =>
          refine List.Pairwise.cons ?_ (ih (n + 1))
          intro w hw
          have := toValueObjectsGo_id_ge (n + 1) rest w hw
          simpa using Nat.lt_of_lt_of_le (Nat.lt_succ_self n) this
      | none => exact ih (n + 1)

/-- Each produced Value's id indexes its originating entry in the input list
(relative to the start index), which kept its kind, name and payload. -/
theorem toValueObjectsGo_indexes (n : Nat) (l : List ValueItem) :
    ∀ v ∈ toValueObjectsGo n l,
      ∃ i, l.get? (v.id - n) = some i ∧ kindOfType i.type = some v.kind
        ∧ v.name = i.name ∧ v.value = i.value := by
  induction l generalizing n with
  | nil => simp [toValueObjectsGo]
  | cons i rest ih =>
      intro v hv
      unfold toValueObjectsGo at hv
      have step : v ∈ toValueObjectsGo (n + 1) rest →
          ∃ j, (i :: rest).get? (v.id - n) = some j
            ∧ kindOfType j.type = some v.kind ∧ v.name = j.name
            ∧ v.value = j.value := by
        intro hv'
        obtain ⟨j, hj, hjk, hjn, hjv⟩ := ih (n + 1) v hv'
        have hge := toValueObjectsGo_id_ge (n + 1) rest v hv'
        refine ⟨j, ?_, hjk, hjn, hjv⟩
        have : v.id - n = (v.id - (n + 1)) + 1 := by omega
        rw [this]
        simpa using hj
      cases hk : kindOfType i.type with
      | some k =>
          rw [hk] at hv
          rcases List.mem_cons.mp hv with hv | hv
          · subst hv
            exact ⟨i, by simp, hk, rfl, rfl⟩
          · exact step hv
      | none =>
          rw [hk] at hv
          exact step hv

/-- Distinct members of a produced list have distinct ids. -/
theorem toValueObjects_id_injective (items : List (Option ValueItem)) :
    ∀ v ∈ toValueObjects items, ∀ w ∈ toValueObjects items,
      w ≠ v → w.id ≠ v.id := by
  intro v hv w hw hne
  have hp : (toValueObjects items).Pairwise (fun a b => a.id ≠ b.id) :=
    (toValueObjectsGo_pairwise 0 (items.filterMap id)).imp Nat.ne_of_lt
  exact hp.forall (fun a b h => h.symm) hw hv hne

/-- A three-entry definition list whose middle entry has an unrecognized type
tag and is hence skipped by `toValueObjects`. -/
def demoItems : List (Option ValueItem) :=
  [some ⟨"a", "static", some "1"⟩, some ⟨"b", "bogus", none⟩,
   some ⟨"c", "static", some "2"⟩]

/-- C3 counterexample: for the three-entry list whose middle entry carries the
unrecognized type tag `bogus`, the produced ids are `[0, 2]`, not the
positions `[0, 1]` among the produced Values that the claim asserts: the
index counter also advances over skipped entries. -/
theorem C3_counterexample :
    (toValueObjects demoItems).map ValueB.id
      ≠ List.range (toValueObjects demoItems).length := by
  decide

/-- C3 amended: each produced Value's id is the index of its originating entry
in the input list after falsy entries are dropped but before entries with
unrecognized type tags are skipped — so ids may skip numbers; ids are strictly
increasing, and each Value's `otherValues` provider returns the produced
Values whose id differs from its own, which excludes exactly itself. -/
theorem C3_ids_and_siblings (items : List (Option ValueItem)) :
    (∀ v ∈ toValueObjects items,
      ∃ i, (items.filterMap id).get? v.id = some i
        ∧ kindOfType i.type = some v.kind ∧ v.name = i.name ∧ v.value = i.value)
    ∧ ((toValueObjects items).map ValueB.id).Pairwise (· < ·)
    ∧ ∀ v ∈ toValueObjects items,
        v ∉ otherValues (toValueObjects items) v
        ∧ ∀ w ∈ toValueObjects items, w.id ≠ v.id →
            w ∈ otherValues (toValueObjects items) v := by
  refine ⟨?_, ?_, ?_⟩
  · intro v hv
    simpa using toValueObjectsGo_indexes 0 (items.filterMap id) v hv
  · exact List.pairwise_map.mpr (toValueObjectsGo_pairwise 0 (items.filterMap id))
  · intro v hv
    constructor
    · simp [otherValues]
    · intro w hw hne
      simp [otherValues, hne, hw]

/-- Witness for C3's amended theorem: the produced Value named `c` has id 2,
the index of its entry in the filtered input list. -/
theorem C3_ids_and_siblings_witness :
    ∃ i, (demoItems.filterMap id).get? 2 = some i
      ∧ kindOfType i.type = some ValueKind.static ∧ "c" = i.name
      ∧ (some "2" : Option String) = i.value :=
  (C3_ids_and_siblings demoItems).1 ⟨.static, "c", some "2", 2⟩ (by decide)

/-- C5: for every produced list `R` and every `v` in `R`, the sibling view of
`v` never contains `v` itself and contains every other member of `R` —
regardless of where the members sit in construction order, since the provider
filters the final list by id and ids are pairwise distinct.  (The getter's
try/catch never fires: the provider is total in this model.) -/
theorem C5_otherValues_excludes_self (items : List (Option ValueItem)) :
    ∀ v ∈ toValueObjects items,
      v ∉ otherValues (toValueObjects items) v
      ∧ ∀ w ∈ toValueObjects items, w ≠ v →
          w ∈ otherValues (toValueObjects items) v := by
  intro v hv
  constructor
  · simp [otherValues]
  · intro w hw hne
    have hid := toValueObjects_id_injective items v hv w hw hne
    simp [otherValues, hw, hid]

/-- Witness for C5 at the demo list: the `a` Value is excluded from its own
sibling view, while the `c` Value appears in it. -/
theorem C5_otherValues_excludes_self_witness :
    (⟨.static, "a", some "1", 0⟩ : ValueB)
        ∉ otherValues (toValueObjects demoItems) ⟨.static, "a", some "1", 0⟩
    ∧ (⟨.static, "c", some "2", 2⟩ : ValueB)
        ∈ otherValues (toValueObjects demoItems) ⟨.static, "a", some "1", 0⟩ := by
  have h := C5_otherValues_excludes_self demoItems
    ⟨.static, "a", some "1", 0⟩ (by decide)
  exact ⟨h.1, h.2 ⟨.static, "c", some "2", 2⟩ (by decide) (by decide)⟩

/-- The underlying item of an `EnvValue`: the configured variable name and the
optional alias (`none` models an absent `alias` property). -/
structure EnvItem where
  name : String
  aliasName : Option String
deriving DecidableEq, Repr

/-- `EnvValue.name`: the alias when it is configured and non-empty after
trimming, otherwise the configured ("real") variable name. -/
def envValueName (item : EnvItem) : String :=
  if isEmptyString item.aliasName then item.name else item.aliasName.getD ""

/-- `EnvValue.value`: walk the process environment (modelled as an association
list) and return the value of the first variable whose trimmed name equals the
trimmed configured ("real") name — a case-sensitive exact comparison; the
alias plays no part.  `none` models an unset result (`undefined`). -/
def envValueLookup (item : EnvItem) (env : List (String × String)) :
    Option String :=
  (env.find? (fun p =>
    String.mk (trimChars p.1.data) == String.mk (trimChars item.name.data))).map
    Prod.snd

/-- C7: an Environment Value with no (or an empty) alias displays the
configured variable name; with a non-empty alias it displays the alias; but
its value is always resolved by a case-sensitive exact match of the trimmed
original configured name against trimmed environment variable names — the
alias never affects the lookup. -/
theorem C7_env_alias_display_only (item : EnvItem)
    (env : List (String × String)) :
    (isEmptyString item.aliasName = true → envValueName item = item.name)
    ∧ (∀ a, item.aliasName = some a → isEmptyString (some a) = false →
        envValueName item = a)
    ∧ (∀ a, envValueLookup { item with aliasName := a } env
        = envValueLookup { item with aliasName := none } env)
    ∧ envValueLookup item env
      = (env.find? (fun p =>
          String.mk (trimChars p.1.data)
            == String.mk (trimChars item.name.data))).map Prod.snd := by
  refine ⟨?_, ?_, ?_, rfl⟩
  · intro h; simp [envValueName, h]
  · intro a ha hne
    simp [envValueName, ha, hne]
  · intro a; rfl

/-- Witness for C7: alias `P` on variable `Path` displays `P` but still looks
up `Path` (finding `v1`, not the `P` variable's `v2`). -/
theorem C7_env_alias_display_only_witness :
    envValueName ⟨"Path", some "P"⟩ = "P"
    ∧ envValueLookup ⟨"Path", some "P"⟩ [("Path", "v1"), ("P", "v2")]
      = envValueLookup ⟨"Path", none⟩ [("Path", "v1"), ("P", "v2")] := by
  have h := C7_env_alias_display_only ⟨"Path", some "P"⟩
    [("Path", "v1"), ("P", "v2")]
  exact ⟨h.2.1 "P" rfl (by decide), h.2.2.1 (some "P")⟩

/-- The completion outcome `deployFile` reports for an HTTP response, by
constructor: success (`completed()` with no error) or one of the four error
messages. -/
inductive HttpCompletion where
  | success
  | noSuccess (code : Nat) (msg : String)
  | clientError (code : Nat) (msg : String)
  | serverError (code : Nat) (msg : String)
  | genericError (code : Nat) (msg : String)
deriving DecidableEq, Repr

/-- The response handler of `HttpPlugin.deployFile`, line for line: each guard
completes and returns before the next one is tested. -/
def classifyResponse (statusCode : Nat) (statusMessage : String) :
    HttpCompletion :=
  if ¬(statusCode > 199 ∧ statusCode < 300) then
    .noSuccess statusCode statusMessage
  else if statusCode > 399 ∧ statusCode < 500 then
    .clientError statusCode statusMessage
  else if statusCode > 499 ∧ statusCode < 600 then
    .serverError statusCode statusMessage
  else if statusCode > 599 then
    .genericError statusCode statusMessage
  else
    .success

/-- The apostrophe character. -/
def squoteChar : Char := Char.ofNat 39

/-- Wrap a string in single quotes, as the template literals of the response
handler do with the status message. -/
def squote (s : String) : String :=
  String.mk (squoteChar :: s.data ++ [squoteChar])

/-- The error message carried by each completion outcome, from the template
literals of the response handler (`none` for success). -/
def completedError : HttpCompletion → Option String
  | .success => none
  | .noSuccess c m => some ("No success: [" ++ toString c ++ "] " ++ squote m)
  | .clientError c m => some ("Client error: [" ++ toString c ++ "] " ++ squote m)
  | .serverError c m => some ("Server error: [" ++ toString c ++ "] " ++ squote m)
  | .genericError c m => some ("Error: [" ++ toString c ++ "] " ++ squote m)

/-- C1: the code does not classify as the claim states.  The first guard of
the response handler returns the generic "no success" completion for every
status outside 200–299, so a 404 response completes with the "No success"
message instead of the client-error message, a 503 with "No success" instead
of the server-error message, and a 650 with "No success" instead of the
generic ≥600 message; the client-error, server-error and ≥600 branches are
unreachable for every status code.  Only the 2xx→success and the
everything-else→"no success" behavior is real. -/
theorem C1_response_classification :
    classifyResponse 404 "Not Found" = .noSuccess 404 "Not Found"
    ∧ classifyResponse 503 "Service Unavailable"
      = .noSuccess 503 "Service Unavailable"
    ∧ classifyResponse 650 "Oops" = .noSuccess 650 "Oops"
    ∧ classifyResponse 204 "No Content" = .success
    ∧ classifyResponse 150 "Hmm" = .noSuccess 150 "Hmm"
    ∧ (∀ c m x y, classifyResponse c m ≠ .clientError x y)
    ∧ (∀ c m x y, classifyResponse c m ≠ .serverError x y)
    ∧ (∀ c m x y, classifyResponse c m ≠ .genericError x y)
    ∧ completedError (classifyResponse 404 "Not Found")
      = some ("No success: [404] " ++ squote "Not Found") := by
  refine ⟨by decide, by decide, by decide, by decide, by decide, ?_, ?_, ?_, by decide⟩
  all_goals
    intro c m x y
    unfold classifyResponse
    split_ifs with h1 h2 h3 h4 <;> (simp_all; try omega)

/-- Case-insensitive character comparison, as the `/i` flag performs on the
ASCII-only upload tokens. -/
def charEqCI (a b : Char) : Bool := lowerNat a.toNat == lowerNat b.toNat

/-- Does the pattern match the target at its first position? -/
def matchesCI : List Char → List Char → Bool
  | [], _ => true
  | _ :: _, [] => false
  | p :: ps, c :: cs => charEqCI p c && matchesCI ps cs

/-- `str.replace(pattern-without-g, replacement)`: replace the leftmost
case-insensitive occurrence of the literal pattern, leave everything else
(including any later occurrence) unchanged.  JavaScript additionally gives
`$`-sequences of the replacement string a special meaning; the theorems below
only cover replacements without `$`, where the semantics agree. -/
def replaceFirstCI (pat repl : List Char) : List Char → List Char
  | [] => []
  | c :: rest =>
      if matchesCI pat (c :: rest) then repl ++ (c :: rest).drop pat.length
      else c :: replaceFirstCI pat repl rest

/-- Matching of `pat` against `mid` fails strictly inside `mid`, so no
continuation of `mid` can make it succeed. -/
def ciMismatchWithin : List Char → List Char → Bool
  | [], _ => false
  | _ :: _, [] => false
  | p :: ps, c :: cs => !(charEqCI p c) || ciMismatchWithin ps cs

/-- Characters with equal code points are equal. -/
theorem charToNat_inj {a b : Char} (h : a.toNat = b.toNat) : a = b :=
  Char.eq_of_val_eq (UInt32.eq_of_toBitVec_eq (BitVec.eq_of_toNat_eq h))

/-- Case-insensitive comparison is reflexive. -/
theorem charEqCI_refl (a : Char) : charEqCI a a = true := by simp [charEqCI]

/-- Only `$` itself compares case-insensitively equal to `$`. -/
theorem charEqCI_dollar {c : Char} (h : charEqCI '$' c = true) : c = '$' := by
  have heq : lowerNat (Char.toNat '$') = lowerNat c.toNat := by
    simpa [charEqCI] using h
  have h36 : lowerNat c.toNat = 36 := by
    rw [← heq]; decide
  have hc : c.toNat = 36 := by
    unfold lowerNat at h36
    split at h36 <;> omega
  exact charToNat_inj (by rw [hc]; decide)

/-- A pattern matches any continuation of itself. -/
theorem matchesCI_self_append (p rest : List Char) :
    matchesCI p (p ++ rest) = true := by
  induction p with
  | nil => simp [matchesCI]
  | cons a ps ih => simp [matchesCI, charEqCI_refl, ih]

/-- A pattern starting with `$` cannot match at a non-`$` character. -/
theorem matchesCI_not_dollar {ps cs : List Char} {c : Char} (hc : c ≠ '$') :
    matchesCI ('$' :: ps) (c :: cs) = false := by
  have hq : charEqCI '$' c = false := by
    cases hq : charEqCI '$' c
    · rfl
    · exact absurd (charEqCI_dollar hq) hc
  simp [matchesCI, hq]

/-- A mismatch strictly inside `mid` rules the match out for every
continuation. -/
theorem ciMismatchWithin_spec :
    ∀ (ps mid : List Char), ciMismatchWithin ps mid = true →
      ∀ post, matchesCI ps (mid ++ post) = false := by
  intro ps
  induction ps with
  | nil => intro mid h; simp [ciMismatchWithin] at h
  | cons p ps ih =>
      intro mid h post
      cases mid with
      | nil => simp [ciMismatchWithin] at h
      | cons c cs =>
          cases hq : charEqCI p c
          · simp [matchesCI, hq]
          · have h2 : ciMismatchWithin ps cs = true := by
              simpa [ciMismatchWithin, hq] using h
            simp [matchesCI, hq, ih cs h2 post]

/-- A `$`-headed pattern leaves a `$`-free string unchanged. -/
theorem replaceFirstCI_no_dollar (ps repl : List Char) :
    ∀ l : List Char, '$' ∉ l → replaceFirstCI ('$' :: ps) repl l = l := by
  intro l
  induction l with
  | nil => intro _; rfl
  | cons c rest ih =>
      intro h
      have hc : c ≠ '$' := fun e => h (by simp [e])
      have ih' := ih (fun hm => h (by simp [hm]))
      simp [replaceFirstCI, matchesCI_not_dollar hc, ih']

/-- A `$`-headed pattern placed verbatim after a `$`-free prefix is found
there and replaced. -/
theorem replaceFirstCI_found (ps repl post : List Char) :
    ∀ pre : List Char, '$' ∉ pre →
      replaceFirstCI ('$' :: ps) repl (pre ++ ('$' :: ps) ++ post)
        = pre ++ repl ++ post := by
  intro pre
  induction pre with
  | nil =>
      intro _
      have hm : matchesCI ('$' :: ps) (('$' :: ps) ++ post) = true :=
        matchesCI_self_append _ _
      simp only [List.nil_append]
      rw [show ('$' :: ps) ++ post = '$' :: (ps ++ post) from rfl] at hm ⊢
      rw [replaceFirstCI, if_pos hm]
      have : ('$' :: (ps ++ post)).drop ('$' :: ps).length = post := by
        rw [show ('$' :: (ps ++ post)) = ('$' :: ps) ++ post from rfl]
        exact List.drop_left _ _
      rw [this]
  | cons c pre' ih =>
      intro h
      have hc : c ≠ '$' := fun e => h (by simp [e])
      have ih' := ih (fun hm => h (by simp [hm]))
      simp only [List.cons_append]
      rw [replaceFirstCI, if_neg (by simp [matchesCI_not_dollar hc])]
      rw [ih']

/-- A `$`-headed pattern that mismatches inside the `$`-headed token `mid`
leaves `pre ++ mid ++ post` unchanged when everything outside `mid`'s head is
`$`-free. -/
theorem replaceFirstCI_skip (ps repl mt post : List Char)
    (hmm : ciMismatchWithin ('$' :: ps) ('$' :: mt) = true)
    (hmt : '$' ∉ mt) (hpost : '$' ∉ post) :
    ∀ pre : List Char, '$' ∉ pre →
      replaceFirstCI ('$' :: ps) repl (pre ++ ('$' :: mt) ++ post)
        = pre ++ ('$' :: mt) ++ post := by
  intro pre
  induction pre with
  | nil =>
      intro _
      have hm : matchesCI ('$' :: ps) (('$' :: mt) ++ post) = false :=
        ciMismatchWithin_spec _ _ hmm post
      simp only [List.nil_append]
      rw [show ('$' :: mt) ++ post = '$' :: (mt ++ post) from rfl] at hm ⊢
      rw [replaceFirstCI, if_neg (by simp [hm])]
      rw [replaceFirstCI_no_dollar ps repl (mt ++ post)
        (by simp [List.mem_append]; tauto)]
  | cons c pre' ih =>
      intro h
      have hc : c ≠ '$' := fun e => h (by simp [e])
      have ih' := ih (fun hm => h (by simp [hm]))
      simp only [List.cons_append]
      rw [replaceFirstCI, if_neg (by simp [matchesCI_not_dollar hc])]
      rw [ih']

/-- Characters `encodeURIComponent` leaves unescaped: ASCII letters, digits,
and `- _ . ! ~ * ' ( )`. -/
def isUnreservedURI (c : Char) : Bool :=
  (65 ≤ c.toNat ∧ c.toNat ≤ 90) || (97 ≤ c.toNat ∧ c.toNat ≤ 122)
  || (48 ≤ c.toNat ∧ c.toNat ≤ 57)
  || c = '-' || c = '_' || c = '.' || c = '!' || c = '~' || c = '*'
  || c = squoteChar || c = '(' || c = ')'

/-- The UTF-8 bytes of a code point. -/
def utf8Bytes (n : Nat) : List Nat :=
  if n < 128 then [n]
  else if n < 2048 then [192 + n / 64, 128 + n % 64]
  else if n < 65536 then [224 + n / 4096, 128 + n / 64 % 64, 128 + n % 64]
  else [240 + n / 262144, 128 + n / 4096 % 64, 128 + n / 64 % 64, 128 + n % 64]

/-- An upper-case hexadecimal digit. -/
def hexDigit (n : Nat) : Char :=
  match n with
  | 0 => '0' | 1 => '1' | 2 => '2' | 3 => '3' | 4 => '4' | 5 => '5'
  | 6 => '6' | 7 => '7' | 8 => '8' | 9 => '9' | 10 => 'A' | 11 => 'B'
  | 12 => 'C' | 13 => 'D' | 14 => 'E' | _ => 'F'

/-- A percent-escaped byte. -/
def percentByte (b : Nat) : List Char := ['%', hexDigit (b / 16), hexDigit (b % 16)]

/-- One character of `encodeURIComponent` output. -/
def encodeChar (c : Char) : List Char :=
  if isUnreservedURI c then [c] else ((utf8Bytes c.toNat).map percentByte).flatten

/-- JavaScript's `encodeURIComponent`: unreserved characters pass through,
everything else becomes the percent-escaped UTF-8 bytes. -/
def encodeURIComponent (s : String) : String :=
  String.mk (s.data.map encodeChar).flatten

example : encodeURIComponent "a b$.txt" = "a%20b%24.txt" := by decide

/-- Hexadecimal digits are never `$`. -/
theorem hexDigit_ne_dollar (n : Nat) : hexDigit n ≠ '$' := by
  unfold hexDigit
  split <;> decide

/-- `encodeURIComponent` output never contains `$`: `$` itself is escaped to
`%24` and escapes consist of `%` and hexadecimal digits. -/
theorem encodeURIComponent_no_dollar (s : String) :
    '$' ∉ (encodeURIComponent s).data := by
  unfold encodeURIComponent
  intro h
  rw [List.mem_flatten] at h
  obtain ⟨l, hl, hd⟩ := h
  rw [List.mem_map] at hl
  obtain ⟨c, _, rfl⟩ := hl
  unfold encodeChar at hd
  split at hd
  · rename_i hu
    rw [List.mem_singleton] at hd
    subst hd
    exact absurd hu (by decide)
  · rw [List.mem_flatten] at hd
    obtain ⟨l2, hl2, hd2⟩ := hd
    rw [List.mem_map] at hl2
    obtain ⟨b, _, rfl⟩ := hl2
    have hall : ∀ x ∈ percentByte b, x ≠ '$' := by
      intro x hx
      unfold percentByte at hx
      simp only [List.mem_cons, List.not_mem_nil, or_false] at hx
      rcases hx with rfl | rfl | rfl
      · decide
      · exact hexDigit_ne_dollar _
      · exact hexDigit_ne_dollar _
    exact hall '$' hd2 rfl

/-- The per-upload data substituted by `deployFile`'s `parsePlaceHolders`:
upload timestamp, relative path, MIME type, `Path.basename(file)`, byte
length, and the two file timestamps, already stringified. -/
structure UploadContext where
  dateStr : String
  relativePath : String
  mime : String
  baseName : String
  sizeStr : String
  changedStr : String
  createdStr : String
deriving DecidableEq, Repr

/-- `deployFile`'s `parsePlaceHolders(str, transformer)`: seven sequential
`str.replace` calls, each replacing the first case-insensitive occurrence of
one literal `$\x7b...\x7d` upload token with the transformed value, in source
order (date, file, file-mime, file-name, file-size, time-changed,
time-created; each regex has the `i` flag but not `g`). -/
def parsePlaceHolders (ctx : UploadContext) (transformer : String → String)
    (str : String) : String :=
  String.mk
    (replaceFirstCI ('$' :: "\x7bvsdeploy-file-time-created\x7d".data)
      (transformer ctx.createdStr).data
    (replaceFirstCI ('$' :: "\x7bvsdeploy-file-time-changed\x7d".data)
      (transformer ctx.changedStr).data
    (replaceFirstCI ('$' :: "\x7bvsdeploy-file-size\x7d".data)
      (transformer ctx.sizeStr).data
    (replaceFirstCI ('$' :: "\x7bvsdeploy-file-name\x7d".data)
      (transformer ctx.baseName).data
    (replaceFirstCI ('$' :: "\x7bvsdeploy-file-mime\x7d".data)
      (transformer ctx.mime).data
    (replaceFirstCI ('$' :: "\x7bvsdeploy-file\x7d".data)
      (transformer ctx.relativePath).data
    (replaceFirstCI ('$' :: "\x7bvsdeploy-date\x7d".data)
      (transformer ctx.dateStr).data str.data)))))))

/-- The URL `deployFile` parses and dispatches: the upload substitution with
`encodeURIComponent` as the transformer. -/
def deployFileTargetUrl (ctx : UploadContext) (url : String) : String :=
  parsePlaceHolders ctx encodeURIComponent url

/-- A header value as `deployFile` submits it: the upload substitution with
the default transformer (`toStringSafe`, the identity on strings — no
percent-encoding). -/
def deployFileHeaderValue (ctx : UploadContext) (v : String) : String :=
  parsePlaceHolders ctx (fun s => s) v

/-- The upload substitution on `pre ++ file-name token ++ post`, for any
transformer whose output on the base name is `$`-free: the three passes
before the file-name pass skip the token (their patterns mismatch inside it),
the file-name pass replaces it, and the three later passes find nothing in
the `$`-free result. -/
theorem parsePlaceHolders_file_name (ctx : UploadContext)
    (transformer : String → String) (pre post : List Char)
    (hpre : '$' ∉ pre) (hpost : '$' ∉ post)
    (hrep : '$' ∉ (transformer ctx.baseName).data) :
    parsePlaceHolders ctx transformer
        (String.mk (pre ++ ('$' :: "\x7bvsdeploy-file-name\x7d".data) ++ post))
      = String.mk (pre ++ (transformer ctx.baseName).data ++ post) := by
  have hmt : '$' ∉ "\x7bvsdeploy-file-name\x7d".data := by decide
  unfold parsePlaceHolders
  refine congrArg String.mk ?_
  rw [show (String.mk (pre ++ ('$' :: "\x7bvsdeploy-file-name\x7d".data) ++ post)).data
      = pre ++ ('$' :: "\x7bvsdeploy-file-name\x7d".data) ++ post from rfl]
  rw [replaceFirstCI_skip "\x7bvsdeploy-date\x7d".data
    (transformer ctx.dateStr).data "\x7bvsdeploy-file-name\x7d".data post
    (by decide) hmt hpost pre hpre]
  rw [replaceFirstCI_skip "\x7bvsdeploy-file\x7d".data
    (transformer ctx.relativePath).data "\x7bvsdeploy-file-name\x7d".data post
    (by decide) hmt hpost pre hpre]
  rw [replaceFirstCI_skip "\x7bvsdeploy-file-mime\x7d".data
    (transformer ctx.mime).data "\x7bvsdeploy-file-name\x7d".data post
    (by decide) hmt hpost pre hpre]
  rw [replaceFirstCI_found "\x7bvsdeploy-file-name\x7d".data
    (transformer ctx.baseName).data post pre hpre]
  have hall : '$' ∉ pre ++ (transformer ctx.baseName).data ++ post := by
    simp only [List.mem_append]
    rintro ((h | h) | h)
    · exact hpre h
    · exact hrep h
    · exact hpost h
  rw [replaceFirstCI_no_dollar "\x7bvsdeploy-file-size\x7d".data
    (transformer ctx.sizeStr).data _ hall]
  rw [replaceFirstCI_no_dollar "\x7bvsdeploy-file-time-changed\x7d".data
    (transformer ctx.changedStr).data _ hall]
  rw [replaceFirstCI_no_dollar "\x7bvsdeploy-file-time-created\x7d".data
    (transformer ctx.createdStr).data _ hall]

/-- C8: in `deployFile`'s upload-specific substitution, a URL containing the
token `$\x7bvsdeploy-file-name\x7d` has it rewritten — before the request is
dispatched — to the percent-encoded base name of the uploaded file, while the
same token in a header value is rewritten to the base name without
percent-encoding.  The `$`-freeness hypotheses keep the surrounding text and
base name clear of further token starts and of JavaScript's `$`-escapes in
replacement strings. -/
theorem C8_url_encoded_header_raw (ctx : UploadContext) (pre post : String)
    (hpre : '$' ∉ pre.data) (hpost : '$' ∉ post.data)
    (hbase : '$' ∉ ctx.baseName.data) :
    deployFileTargetUrl ctx (pre ++ "$\x7bvsdeploy-file-name\x7d" ++ post)
      = pre ++ encodeURIComponent ctx.baseName ++ post
    ∧ deployFileHeaderValue ctx (pre ++ "$\x7bvsdeploy-file-name\x7d" ++ post)
      = pre ++ ctx.baseName ++ post := by
  have hdata : (pre ++ "$\x7bvsdeploy-file-name\x7d" ++ post)
      = String.mk (pre.data ++ ('$' :: "\x7bvsdeploy-file-name\x7d".data)
          ++ post.data) := rfl
  constructor
  · rw [hdata]
    rw [deployFileTargetUrl, parsePlaceHolders_file_name ctx encodeURIComponent
      pre.data post.data hpre hpost (encodeURIComponent_no_dollar _)]
    rfl
  · rw [hdata]
    rw [deployFileHeaderValue, parsePlaceHolders_file_name ctx (fun s => s)
      pre.data post.data hpre hpost hbase]
    rfl

/-- Witness for C8 at a concrete URL, header value and base name. -/
theorem C8_url_encoded_header_raw_witness :
    deployFileTargetUrl ⟨"d", "r", "m", "a b.txt", "s", "ch", "cr"⟩
        ("http://h/up/" ++ "$\x7bvsdeploy-file-name\x7d" ++ "?x=1")
      = "http://h/up/"
          ++ encodeURIComponent "a b.txt" ++ "?x=1"
    ∧ deployFileHeaderValue ⟨"d", "r", "m", "a b.txt", "s", "ch", "cr"⟩
        ("http://h/up/" ++ "$\x7bvsdeploy-file-name\x7d" ++ "?x=1")
      = "http://h/up/" ++ "a b.txt" ++ "?x=1" :=
  C8_url_encoded_header_raw ⟨"d", "r", "m", "a b.txt", "s", "ch", "cr"⟩
    "http://h/up/" "?x=1" (by decide) (by decide) (by decide)

/-- The two module-level state variables of `values.ts`: both are declared
`let ...: Object;` with no initializer, so each is `undefined` (modelled as
`none`) until something assigns it. -/
structure ScriptStateEnv where
  globalScriptValueState : Option (List (String × String))
  scriptValueStates : Option (List (String × String))
deriving DecidableEq, Repr

/-- The state of the two stores when the module has just been loaded and
nothing has assigned them yet. -/
def initialScriptStateEnv : ScriptStateEnv := ⟨none, none⟩

/-- `resetScriptStates()`: assign a fresh empty object to both stores. -/
def resetScriptStates (_ : ScriptStateEnv) : ScriptStateEnv :=
  ⟨some [], some []⟩

/-- What a script module's `getValue` does with the `args.state` accessors:
return a value, read `args.state` and continue with it, or assign
`args.state` and continue.  Reading any other `args` field is pure and needs
no modelling. -/
inductive ModuleBody where
  | ret (v : Option String)
  | readStateThen (k : Option String → ModuleBody)
  | writeStateThen (v : String) (k : ModuleBody)

/-- The result of running JavaScript code that can throw. -/
inductive JsOutcome (α : Type) where
  | ok (val : α)
  | thrown
deriving DecidableEq

/-- Run a module body.  The `args.state` getter evaluates
`scriptValueStates[script]` and the setter assigns
`scriptValueStates[script] = v`; both index the module-level store, so while
it is still `undefined` either access throws a `TypeError` (`.thrown`). -/
def runBody (script : String) :
    ScriptStateEnv → ModuleBody → JsOutcome (Option String × ScriptStateEnv)
  | env, .ret v => .ok (v, env)
  | env, .readStateThen k =>
      match env.scriptValueStates with
      | none => .thrown
      | some m => runBody script env (k ((m.lookup script)))
  | env, .writeStateThen v k =>
      match env.scriptValueStates with
      | none => .thrown
      | some m =>
          runBody script
            { env with scriptValueStates := some ((script, v) :: m) } k

/-- What `deploy_helpers.loadModule(script)` hands back: a falsy module, a
module without a `getValue` export, or a module exporting `getValue` with the
given behavior. -/
inductive LoadedModule where
  | falsy
  | withoutGetValue
  | withGetValue (body : ModuleBody)

/-- The external collaborators `ScriptValue.value` consults: path resolution
(`Path.isAbsolute`/`join`/`resolve` against the workspace root),
`FS.existsSync`, and the module loader. -/
structure ScriptWorld where
  resolvePath : String → String
  fileExists : String → Bool
  loadModule : String → LoadedModule

/-- The underlying item of a `ScriptValue`: the configured script path. -/
structure ScriptItem where
  script : String

/-- `ScriptValue.value`: substitute placeholders into the configured script
path; if the result is empty, the resolved file does not exist, the loaded
module is falsy, or it has no `getValue` export, return `undefined` without
calling anything; otherwise invoke `getValue` with the `args` bundle.  The
second component records whether `getValue` was invoked. -/
def scriptValue_value (w : ScriptWorld) (values : List ValueB)
    (item : ScriptItem) (env : ScriptStateEnv) :
    JsOutcome (Option String × ScriptStateEnv) × Bool :=
  let script0 := replaceWithValues values item.script
  if isEmptyString (some script0) then (.ok (none, env), false)
  else
    let script := w.resolvePath script0
    if w.fileExists script then
      match w.loadModule script with
      | .falsy => (.ok (none, env), false)
      | .withoutGetValue => (.ok (none, env), false)
      | .withGetValue body => (runBody script env body, true)
    else (.ok (none, env), false)

/-- C9: the two process-wide stores are `undefined` until `resetScriptStates`
first runs (which sets both to fresh empty objects), and in that state
evaluating a Script value whose module reads or writes `args.state` throws,
because the getter/setter index `scriptValueStates` while it is undefined. -/
theorem C9_uninitialized_script_state (w : ScriptWorld) (values : List ValueB)
    (item : ScriptItem) :
    initialScriptStateEnv.globalScriptValueState = none
    ∧ initialScriptStateEnv.scriptValueStates = none
    ∧ (resetScriptStates initialScriptStateEnv).globalScriptValueState = some []
    ∧ (resetScriptStates initialScriptStateEnv).scriptValueStates = some []
    ∧ (∀ k, isEmptyString (some (replaceWithValues values item.script)) = false →
        w.fileExists (w.resolvePath (replaceWithValues values item.script)) = true →
        w.loadModule (w.resolvePath (replaceWithValues values item.script))
          = .withGetValue (.readStateThen k) →
        (scriptValue_value w values item initialScriptStateEnv).1 = .thrown)
    ∧ (∀ v k, isEmptyString (some (replaceWithValues values item.script)) = false →
        w.fileExists (w.resolvePath (replaceWithValues values item.script)) = true →
        w.loadModule (w.resolvePath (replaceWithValues values item.script))
          = .withGetValue (.writeStateThen v k) →
        (scriptValue_value w values item initialScriptStateEnv).1 = .thrown) := by
  refine ⟨rfl, rfl, rfl, rfl, ?_, ?_⟩
  · intro k h1 h2 h3
    simp only [scriptValue_value, h1, h2, h3, Bool.false_eq_true, if_false, if_true]
    rfl
  · intro v k h1 h2 h3
    simp only [scriptValue_value, h1, h2, h3, Bool.false_eq_true, if_false, if_true]
    rfl

/-- Witness for C9: a world whose loader returns a state-reading module and a
world whose loader returns a state-writing module both throw under the
initial (never-reset) stores. -/
theorem C9_uninitialized_script_state_witness :
    (scriptValue_value
      ⟨fun s => s, fun _ => true, fun _ => .withGetValue (.readStateThen .ret)⟩
      [] ⟨"s.js"⟩ initialScriptStateEnv).1 = .thrown
    ∧ (scriptValue_value
      ⟨fun s => s, fun _ => true,
        fun _ => .withGetValue (.writeStateThen "1" (.ret none))⟩
      [] ⟨"s.js"⟩ initialScriptStateEnv).1 = .thrown := by
  constructor
  · exact (C9_uninitialized_script_state
      ⟨fun s => s, fun _ => true, fun _ => .withGetValue (.readStateThen .ret)⟩
      [] ⟨"s.js"⟩).2.2.2.2.1 .ret (by decide) rfl rfl
  · exact (C9_uninitialized_script_state
      ⟨fun s => s, fun _ => true,
        fun _ => .withGetValue (.writeStateThen "1" (.ret none))⟩
      [] ⟨"s.js"⟩).2.2.2.2.2 "1" (.ret none) (by decide) rfl rfl

/-- C10: for every Script value, each of the four guard failures — empty
substituted script path, missing file, falsy loaded module, module without a
`getValue` export — makes the accessor return `undefined` with no error and
without invoking the module's function. -/
theorem C10_script_guard_returns_undefined (w : ScriptWorld)
    (values : List ValueB) (item : ScriptItem) (env : ScriptStateEnv) :
    (isEmptyString (some (replaceWithValues values item.script)) = true →
      scriptValue_value w values item env = (.ok (none, env), false))
    ∧ (isEmptyString (some (replaceWithValues values item.script)) = false →
        w.fileExists (w.resolvePath (replaceWithValues values item.script)) = false →
        scriptValue_value w values item env = (.ok (none, env), false))
    ∧ (isEmptyString (some (replaceWithValues values item.script)) = false →
        w.fileExists (w.resolvePath (replaceWithValues values item.script)) = true →
        w.loadModule (w.resolvePath (replaceWithValues values item.script)) = .falsy →
        scriptValue_value w values item env = (.ok (none, env), false))
    ∧ (isEmptyString (some (replaceWithValues values item.script)) = false →
        w.fileExists (w.resolvePath (replaceWithValues values item.script)) = true →
        w.loadModule (w.resolvePath (replaceWithValues values item.script))
          = .withoutGetValue →
        scriptValue_value w values item env = (.ok (none, env), false)) := by
  refine ⟨?_, ?_, ?_, ?_⟩
  · intro h1
    simp only [scriptValue_value, h1, if_true]
  · intro h1 h2
    simp only [scriptValue_value, h1, h2, Bool.false_eq_true, if_false]
  · intro h1 h2 h3
    simp only [scriptValue_value, h1, h2, h3, Bool.false_eq_true, if_false, if_true]
  · intro h1 h2 h3
    simp only [scriptValue_value, h1, h2, h3, Bool.false_eq_true, if_false, if_true]

/-- Witness for C10: all four guard failures at concrete worlds. -/
theorem C10_script_guard_returns_undefined_witness :
    scriptValue_value ⟨fun s => s, fun _ => true, fun _ => .falsy⟩ [] ⟨""⟩
        initialScriptStateEnv
      = (.ok (none, initialScriptStateEnv), false)
    ∧ scriptValue_value ⟨fun s => s, fun _ => false, fun _ => .falsy⟩ [] ⟨"s.js"⟩
        initialScriptStateEnv
      = (.ok (none, initialScriptStateEnv), false)
    ∧ scriptValue_value ⟨fun s => s, fun _ => true, fun _ => .falsy⟩ [] ⟨"s.js"⟩
        initialScriptStateEnv
      = (.ok (none, initialScriptStateEnv), false)
    ∧ scriptValue_value ⟨fun s => s, fun _ => true, fun _ => .withoutGetValue⟩
        [] ⟨"s.js"⟩ initialScriptStateEnv
      = (.ok (none, initialScriptStateEnv), false) := by
  refine ⟨?_, ?_, ?_, ?_⟩
  · exact (C10_script_guard_returns_undefined
      ⟨fun s => s, fun _ => true, fun _ => .falsy⟩ [] ⟨""⟩
      initialScriptStateEnv).1 (by decide)
  · exact (C10_script_guard_returns_undefined
      ⟨fun s => s, fun _ => false, fun _ => .falsy⟩ [] ⟨"s.js"⟩
      initialScriptStateEnv).2.1 (by decide) rfl
  · exact (C10_script_guard_returns_undefined
      ⟨fun s => s, fun _ => true, fun _ => .falsy⟩ [] ⟨"s.js"⟩
      initialScriptStateEnv).2.2.1 (by decide) rfl rfl
  · exact (C10_script_guard_returns_undefined
      ⟨fun s => s, fun _ => true, fun _ => .withoutGetValue⟩ [] ⟨"s.js"⟩
      initialScriptStateEnv).2.2.2 (by decide) rfl rfl
